import Mathlib

/-!
Shallow embedding of the declaration overlay-merge engine, alias expander,
grouping index and hierarchical order-key deriver of `timbertrees.py`.

Python documents are arbitrarily nested JSON-like values.  Machine floats are
modelled as exact rationals (`Rat`); the one float operation the merge engine
performs is the upcast `float(v)` of an integer, whose guarding
`assert v == float(v)` is modelled by an explicit test of exact IEEE 754
binary64 representability of the integer — when the guard passes, `float(v)`
equals `v` exactly and the rational value is faithful.  Python `assert`
failures and raised exceptions are modelled as `Except.error`; `logging`
calls are side effects with no data flow and are not modelled.
-/

namespace Timbertrees

/-- A parsed JSON document value (maps keep insertion order, as Python dicts do). -/
inductive JValue where
  | null
  | bool (b : Bool)
  | int (n : Int)
  | float (q : Rat)
  | str (s : String)
  | list (xs : List JValue)
  | dict (kvs : List (String × JValue))
  deriving Repr

/-- A Python dict with string keys: an insertion-ordered association list. -/
abbrev JDict := List (String × JValue)

mutual

/-- Structural equality of document values, the `==` used by `in` membership
tests and `list.remove` in the merge engine.  (Python `==` additionally
identifies numerically equal `int`/`float` and reordered dicts; every
comparison performed by the claims below is between identically shaped
values, where the two notions agree.) -/
def JValue.beq : JValue → JValue → Bool
  | .null, .null => true
  | .bool a, .bool b => a == b
  | .int a, .int b => a == b
  | .float a, .float b => a == b
  | .str a, .str b => a == b
  | .list xs, .list ys => JValue.beqList xs ys
  | .dict xs, .dict ys => JValue.beqDict xs ys
  | _, _ => false

def JValue.beqList : List JValue → List JValue → Bool
  | [], [] => true
  | x :: xs, y :: ys => x.beq y && JValue.beqList xs ys
  | _, _ => false

def JValue.beqDict : List (String × JValue) → List (String × JValue) → Bool
  | [], [] => true
  | (k1, v1) :: xs, (k2, v2) :: ys => k1 == k2 && v1.beq v2 && JValue.beqDict xs ys
  | _, _ => false

end

/-- Helper for `partitionHash`, scanning for the first separator character. -/
def partitionHashAux : List Char → List Char → List Char × Option (List Char)
  | [], acc => (acc.reverse, none)
  | c :: cs, acc =>
    if c = '#' then (acc.reverse, some cs) else partitionHashAux cs (c :: acc)

/-- Python `key.partition('#')`, keeping the text before and after the first
`#` (the separator itself is dropped, as `merge_into_spec` drops it). -/
def partitionHash (s : String) : String × String :=
  match partitionHashAux s.toList [] with
  | (before, none) => (String.mk before, "")
  | (before, some after) => (String.mk before, String.mk after)

/-- Python `str.lower()` (character-wise, which is what it does on the ASCII
identifiers this program handles). -/
def strToLower (s : String) : String := String.mk (s.toList.map Char.toLower)

/-- Python `spec[k] = v`: replace the value at an existing key in place
(keeping its position), else append a new entry at the end. -/
def dictSet (d : JDict) (k : String) (v : JValue) : JDict :=
  if d.any (fun p => p.1 == k) then
    d.map (fun p => bif p.1 == k then (p.1, v) else p)
  else d ++ [(k, v)]

/-- Python `x in i` for a list `i`. -/
def pyContainsList (xs : List JValue) (x : JValue) : Bool :=
  xs.any (fun y => JValue.beq x y)

/-- Python `i.remove(x)`: drop the first element equal to `x`. -/
def pyRemove : List JValue → JValue → List JValue
  | [], _ => []
  | y :: ys, x => bif JValue.beq x y then ys else y :: pyRemove ys x

/-- The `#remove` loop of `merge_into_spec`: for each incoming element, warn
and skip it when absent, otherwise remove its first occurrence. -/
def removeAll (xs vs : List JValue) : List JValue :=
  vs.foldl (fun acc x => bif pyContainsList acc x then pyRemove acc x else acc)
    xs

/-- The `#append` / `#remove` / unsupported-verb dispatch of `merge_into_spec`,
reached when the existing value is a list and the key carries a verb. -/
def listPatch (name spec_k m : String) (xs : List JValue) (v : JValue)
    (spec : JDict) : Except String JDict :=
  match v with
  | .list vs =>
    if m = "append" then .ok (dictSet spec spec_k (.list (xs ++ vs)))
    else if m = "remove" then .ok (dictSet spec spec_k (.list (removeAll xs vs)))
    else .error (String.append (String.append "Unsupported mode: " name) spec_k)
  | _ => .error (String.append (String.append name ".") spec_k)

/-- Constructor tag of a value, standing for Python `type(...)`; `.null`
plays the role of `NoneType`.  (`type(True)` is `bool`, not `int`, and the
merge engine compares types with `==`, so tags are compared exactly.) -/
def jtype : JValue → Nat
  | .null => 0
  | .bool _ => 1
  | .int _ => 2
  | .float _ => 3
  | .str _ => 4
  | .list _ => 5
  | .dict _ => 6

/-- Whether a value is a float, as tested by `type(i) == float`. -/
def isFloatV : JValue → Bool
  | .float _ => true
  | _ => false

/-- Whether a value is an int, as tested by `type(v) == int`. -/
def isIntV : JValue → Bool
  | .int _ => true
  | _ => false

/-- The `float(v)` upcast applied to an incoming integer; only stored when
the `assert v == float(v)` guard passes, in which case the conversion is
exact and the rational value faithful. -/
def upcast : JValue → JValue
  | .int n => .float (n : Rat)
  | v => v

/-- The value of an int node (only consulted on `.int` values). -/
def intVal : JValue → Int
  | .int n => n
  | _ => 0

/-- Strip factors of two (fuelled; the fuel is never exhausted for the
arguments `intExactFloat` passes, which have fewer than 1024 trailing zero
bits). -/
def dropTrailingZeros : Nat → Nat → Nat
  | 0, a => a
  | fuel + 1, a => if a % 2 = 0 then dropTrailingZeros fuel (a / 2) else a

/-- Whether an integer is exactly representable as an IEEE 754 binary64
double, i.e. whether Python `v == float(v)` holds (`float(v)` rounds to
nearest, and raises OverflowError beyond the finite range, so equality holds
exactly for the representable integers): the magnitude is below `2 ^ 53`, or
it is below `2 ^ 1024` with an odd part that fits in 53 bits.  All
representable integers are below `2 ^ 1024`, the largest finite double being
`(2 ^ 53 - 1) * 2 ^ 971`. -/
def intExactFloat (n : Int) : Bool :=
  let a := n.natAbs
  if a < 2 ^ 53 then true
  else if a < 2 ^ 1024 then dropTrailingZeros 1024 a < 2 ^ 53
  else false

/-- The final `else` branch of `merge_into_spec`: when the existing value is
a float and the incoming one an int, check `assert v == float(v)` and store
the upcast (the subsequent type check then compares float with float and
passes); otherwise require `i is None or type(i) == type(v)` and store the
value under the bare key. -/
def mergeScalar (name spec_k : String) (i v : JValue) (spec : JDict) :
    Except String JDict :=
  if isFloatV i && isIntV v then
    if intExactFloat (intVal v) then .ok (dictSet spec spec_k (upcast v))
    else .error (String.append (String.append name ".") spec_k)
  else
    if jtype i = 0 ∨ jtype i = jtype v then .ok (dictSet spec spec_k v)
    else .error (String.append (String.append name ".") spec_k)

mutual

/-- One iteration of the `for k, v in json` loop of `merge_into_spec`, after
the key has been split as `k, _, m = k.partition('#')`: fetch the existing
value (`None` when the key is absent or holds null) and dispatch on its type
exactly as the `if isinstance(i, list) and m` / `elif isinstance(i, dict)` /
`else` chain does. -/
def mergeFieldCore (name : String) (spec : JDict) (k m : String)
    (v : JValue) : Except String JDict :=
  match (spec.lookup k).getD .null, v with
  | .list xs, v =>
    if m = "" then mergeScalar name k (.list xs) v spec
    else listPatch name k m xs v spec
  | .dict d, .dict vd =>
    match merge_into_spec (String.append (String.append name ".") k) d vd with
    | .ok d2 => .ok (dictSet spec k (.dict d2))
    | .error e => .error e
  | .dict _, _ => .error (String.append (String.append name ".") k)
  | .null, v => mergeScalar name k .null v spec
  | .bool b, v => mergeScalar name k (.bool b) v spec
  | .int n, v => mergeScalar name k (.int n) v spec
  | .float q, v => mergeScalar name k (.float q) v spec
  | .str s, v => mergeScalar name k (.str s) v spec

/-- Python `merge_into_spec(name, spec, json.items())`: fold every item of the
incoming document into the spec, aborting on the first fatal inconsistency. -/
def merge_into_spec (name : String) (spec : JDict) :
    List (String × JValue) → Except String JDict
  | [] => .ok spec
  | (key, v) :: rest => do
    let spec2 ← mergeFieldCore name spec (partitionHash key).1
      (partitionHash key).2 v
    merge_into_spec name spec2 rest

end

/-- Folding a single `key: v` item into a spec (the loop body of
`merge_into_spec` for one item, verb splitting included). -/
def mergeField (name : String) (spec : JDict) (key : String) (v : JValue) :
    Except String JDict :=
  mergeFieldCore name spec (partitionHash key).1 (partitionHash key).2 v

/-- Whether a merge outcome is a fatal abort (a raised `AssertionError`). -/
def isErr {ε α : Type} : Except ε α → Bool
  | .error _ => true
  | .ok _ => false

/-- One raw declaration: `PartialBlueprint(path, optional, specification)`. -/
structure PartialBlueprint where
  path : String
  optional : Bool
  specification : JDict
  deriving Repr

/-- Python `sorted(l, key=lambda i: (i.optional))`: a stable sort on a boolean
key, i.e. the non-optional declarations in input order followed by the
optional ones in input order. -/
def sortByOptional (l : List PartialBlueprint) : List PartialBlueprint :=
  l.filter (fun d => !d.optional) ++ l.filter (fun d => d.optional)

/-- The body of the per-identifier merge loop of `load_blueprint_jsons`
(lines 551-559): skip an optional declaration while no entry exists yet,
otherwise fold the document into the (possibly fresh empty) entry. -/
def foldDecls (name : String) : List PartialBlueprint → Option JDict →
    Except String (Option JDict)
  | [], acc => .ok acc
  | d :: rest, acc =>
    if d.optional && acc.isNone then foldDecls name rest acc
    else
      match merge_into_spec name (acc.getD []) d.specification with
      | .error e => .error e
      | .ok spec2 => foldDecls name rest (some spec2)

/-- The merge that `load_blueprint_jsons` performs for the declaration list of
one canonical identifier: engine-imposed optional-last ordering, then the
skip-or-fold loop; `none` means the identifier received no Definition. -/
def mergeDecls (name : String) (l : List PartialBlueprint) :
    Except String (Option JDict) :=
  foldDecls name (sortByOptional l) none

/-- The whole `merged_specs` loop of `load_blueprint_jsons`: one merged
Definition per identifier that received a base, in first-insertion order. -/
def load_blueprint_jsons_merge :
    List (String × List PartialBlueprint) → List (String × JDict) →
    Except String (List (String × JDict))
  | [], merged => .ok merged
  | (name, l) :: rest, merged =>
    match mergeDecls name l with
    | .error e => .error e
    | .ok none => load_blueprint_jsons_merge rest merged
    | .ok (some spec) => load_blueprint_jsons_merge rest (merged ++ [(name, spec)])

/-- One merged spec as seen by `add_backward_compatible_keys`: its `Id` and
its optional `BackwardCompatibleIds` list (absent models `spec.get(..., [])`
returning the empty default). -/
structure BCSpec where
  id : String
  backwardCompatibleIds : List String
  deriving Repr

/-- A merged blueprint: the dict whose values are its specs. -/
abbrev BCBlueprint := List (String × BCSpec)

/-- Python `add_backward_compatible_keys(d)`: iterate over a snapshot of the values
of the lookup table; for every backward-compatible id of every spec, register
the (lowercased) alias pointing at the same blueprint unless that key is
already present, in which case the registration is skipped with a warning. -/
def add_backward_compatible_keys (d : List (String × BCBlueprint)) :
    List (String × BCBlueprint) :=
  (d.map Prod.snd).foldl (fun acc blueprint =>
    blueprint.foldl (fun acc2 sp =>
      sp.2.backwardCompatibleIds.foldl (fun acc3 i =>
        if (acc3.lookup (strToLower i)).isSome then acc3
        else acc3 ++ [(strToLower i, blueprint)]) acc2) acc) d

/-- A tool group as consumed by `ToolGroupKey`: its optional `Layout` (absent
models the lookup of field Layout defaulting to "Default"), its `Order`, and
its parent group, which
in the program is the single entry of `ParentToolGroupSpec.ParentIds` already
resolved through `toolgroups_by_id` (an absent or falsy `ParentIds` is the
`root` case, in which no recursion happens). -/
inductive ToolGroup where
  | root (layout : Option String) (order : Int)
  | child (layout : Option String) (order : Int) (parent : ToolGroup)
  deriving Repr

/-- The recursive body of `ToolGroupKey` on an actual group. -/
def ToolGroup.key : ToolGroup → List (String × Int)
  | .root lay o => [(lay.getD "Default", o)]
  | .child lay o p => p.key ++ [(lay.getD "Default", o)]

/-- Python `ToolGroupKey(b)`: the empty tuple for a missing group, otherwise the
ancestor chain of `(layout, order)` pairs, parent first. -/
def ToolGroupKey : Option ToolGroup → List (String × Int)
  | none => []
  | some g => g.key

/-- Python tuple `<` on the flat alternating `(str, int, str, int, ...)`
order keys, read two components at a time: lexicographic comparison in which
a strict prefix is smaller than its extension. -/
def tupLt : List (String × Int) → List (String × Int) → Bool
  | _, [] => false
  | [], _ :: _ => true
  | (s1, n1) :: xs, (s2, n2) :: ys =>
    if s1 < s2 then true
    else if s2 < s1 then false
    else if n1 < n2 then true
    else if n2 < n1 then false
    else tupLt xs ys

/-- Whether `needle` starts `hay`. -/
def isPrefixChars : List Char → List Char → Bool
  | [], _ => true
  | _ :: _, [] => false
  | a :: as, b :: bs => a == b && isPrefixChars as bs

/-- Substring test, Python `needle in hay` for strings. -/
def containsSubAux (needle : List Char) : List Char → Bool
  | [] => isPrefixChars needle []
  | c :: rest => isPrefixChars needle (c :: rest) || containsSubAux needle rest

/-- Python `key_part not in group` (negated): membership for dicts, element
membership for lists, substring for strings; a TypeError for everything else
(`None`, booleans and numbers are not containers). -/
def pyContains (g : JValue) (k : String) : Except String Bool :=
  match g with
  | .dict kvs => .ok (kvs.any (fun p => p.1 == k))
  | .list xs => .ok (pyContainsList xs (.str k))
  | .str s => .ok (containsSubAux k.toList s.toList)
  | _ => .error "TypeError: argument is not iterable"

/-- Python `group[key_part]`: dict indexing; indexing a string or list with a
string key, or anything else, is a TypeError. -/
def pyIndex (g : JValue) (k : String) : Except String JValue :=
  match g with
  | .dict kvs =>
    match kvs.lookup k with
    | some v => .ok v
    | none => .error "KeyError"
  | _ => .error "TypeError: not subscriptable"

/-- The path walk of `dict_group_by_id`: follow the dotted segments; an
absent segment short-circuits to the empty-string group key; a non-container
intermediate value raises. -/
def resolvePath : JValue → List String → Except String JValue
  | g, [] => .ok g
  | g, k :: rest => do
    let c ← pyContains g k
    if c then do
      let g2 ← pyIndex g k
      resolvePath g2 rest
    else .ok (.str "")

/-- Python `key.split('.')` helper. -/
def splitDotsAux : List Char → List Char → List (List Char)
  | [], acc => [acc.reverse]
  | c :: cs, acc =>
    if c = '.' then acc.reverse :: splitDotsAux cs []
    else splitDotsAux cs (c :: acc)

/-- Python `key.split('.')`. -/
def splitDots (s : String) : List String :=
  (splitDotsAux s.toList []).map String.mk

/-- Python `group.lower()` on a group key: only strings have `lower`;
anything else (in particular `None`) raises AttributeError. -/
def lowerKey : JValue → Except String String
  | .str s => .ok (strToLower s)
  | _ => .error "AttributeError: lower"

/-- Python `groups.setdefault(item, []).append(value)`: extend the bucket in place,
creating it at the end on first use. -/
def addToGroup (groups : List (String × List JValue)) (k : String)
    (v : JValue) : List (String × List JValue) :=
  if groups.any (fun p => p.1 == k) then
    groups.map (fun p => bif p.1 == k then (p.1, p.2 ++ [v]) else p)
  else groups ++ [(k, [v])]

/-- The fan-out loop of `dict_group_by_id` for a list-valued group key: the
record joins every group named by an element (lowercased). -/
def addListGroups (value : JValue) :
    List (String × List JValue) → List JValue →
    Except String (List (String × List JValue))
  | groups, [] => .ok groups
  | groups, item :: rest => do
    let k ← lowerKey item
    addListGroups value (addToGroup groups k value) rest

/-- The record loop of `dict_group_by_id` over the input iterable. -/
def dict_group_by_id_aux (parts : List String) :
    List JValue → List (String × List JValue) →
    Except String (List (String × List JValue))
  | [], groups => .ok groups
  | value :: rest, groups => do
    let group ← resolvePath value parts
    let groups2 ←
      match group with
      | .list xs => addListGroups value groups xs
      | g => do
        let k ← lowerKey g
        pure (addToGroup groups k value)
    dict_group_by_id_aux parts rest groups2

/-- Python `dict_group_by_id(iterable, key)`: group records by the dotted field
path, with fan-out for list-valued keys. -/
def dict_group_by_id (records : List JValue) (key : String) :
    Except String (List (String × List JValue)) :=
  dict_group_by_id_aux (splitDots key) records []

/-- The three raw declarations of the `sawmill` end-to-end example: the
non-optional base, the non-optional science-cost overlay, and the optional
building-cost-removing overlay. -/
def sawmillDecls : List PartialBlueprint :=
  [⟨"base", false, [("BuildingCost#append",
      .list [.dict [("Id", .str "Log"), ("Amount", .int 5)]]),
      ("ScienceCost", .int 0)]⟩,
   ⟨"ov1", false, [("ScienceCost", .int 10)]⟩,
   ⟨"ov2", true, [("BuildingCost#remove",
      .list [.dict [("Id", .str "Log"), ("Amount", .int 5)]])]⟩]

/-! ## General lemmas about association lists and folds -/

theorem lookup_append_left {β : Type} {l : List (String × β)}
    (l' : List (String × β)) {k : String} {v : β}
    (h : l.lookup k = some v) : (l ++ l').lookup k = some v := by
  induction l with
  | nil => simp [List.lookup] at h
  | cons p rest ih =>
    rw [List.cons_append]
    simp only [List.lookup] at h ⊢
    split at h
    · exact h
    · exact ih h

theorem lookup_append_none {β : Type} {l : List (String × β)}
    (l' : List (String × β)) {k : String}
    (h : l.lookup k = none) : (l ++ l').lookup k = l'.lookup k := by
  induction l with
  | nil => simp
  | cons p rest ih =>
    rw [List.cons_append]
    simp only [List.lookup] at h ⊢
    split at h
    · exact absurd h (by simp)
    · exact ih h

theorem foldl_lookup_preserve {β α : Type}
    (f : List (String × β) → α → List (String × β))
    (hf : ∀ acc x k v, acc.lookup k = some v → (f acc x).lookup k = some v) :
    ∀ (l : List α) (acc : List (String × β)) (k : String) (v : β),
      acc.lookup k = some v → (l.foldl f acc).lookup k = some v := by
  intro l
  induction l with
  | nil => intro acc k v h; exact h
  | cons x xs ih => intro acc k v h; exact ih _ _ _ (hf _ _ _ _ h)

theorem tupLt_self_append : ∀ (xs : List (String × Int)) (x : String × Int),
    tupLt xs (xs ++ [x]) = true := by
  intro xs x
  induction xs with
  | nil => rfl
  | cons p rest ih =>
    rcases p with ⟨s, n⟩
    simp [tupLt, ih, lt_irrefl]

theorem foldl_extends {β α : Type} (f : List β → α → List β)
    (hf : ∀ acc x, acc <+: f acc x) :
    ∀ (l : List α) (acc : List β), acc <+: l.foldl f acc := by
  intro l
  induction l with
  | nil => intro acc; exact List.prefix_refl acc
  | cons x xs ih => intro acc; exact (hf acc x).trans (ih (f acc x))

/-- C6: `add_backward_compatible_keys` never changes the binding of a key that
is already present in the lookup table: an alias whose (lowercased) key
already names an entry is skipped, so every previously present key still maps
to the same blueprint afterwards; moreover the original table is an initial
segment of the result, so only new alias keys are appended. -/
theorem add_backward_compatible_keys_preserves_bindings
    (d : List (String × BCBlueprint)) (k : String) (v : BCBlueprint)
    (h : d.lookup k = some v) :
    (add_backward_compatible_keys d).lookup k = some v ∧
    d <+: add_backward_compatible_keys d := by
  constructor
  · unfold add_backward_compatible_keys
    refine foldl_lookup_preserve _ ?_ _ _ _ _ h
    intro acc bp k1 v1 h1
    refine foldl_lookup_preserve _ ?_ _ _ _ _ h1
    intro acc2 sp k2 v2 h2
    refine foldl_lookup_preserve _ ?_ _ _ _ _ h2
    intro acc3 i k3 v3 h3
    dsimp only
    split
    · exact h3
    · exact lookup_append_left _ h3
  · unfold add_backward_compatible_keys
    refine foldl_extends _ ?_ _ d
    intro acc bp
    refine foldl_extends _ ?_ _ acc
    intro acc2 sp
    refine foldl_extends _ ?_ _ acc2
    intro acc3 i
    dsimp only
    split
    · exact List.prefix_refl _
    · exact List.prefix_append _ _

/-- C6 witness: in a table with canonical key `a`, a spec declaring aliases
`A` (colliding with `a` after lowercasing, hence skipped) and `b` leaves the
binding of `a` untouched and only adds the new key `b`. -/
theorem add_backward_compatible_keys_preserves_bindings_witness :
    ([("a", [("S", BCSpec.mk "A" ["A", "b"])])].lookup "a" =
      some [("S", BCSpec.mk "A" ["A", "b"])]) ∧
    ((add_backward_compatible_keys
        [("a", [("S", BCSpec.mk "A" ["A", "b"])])]).lookup "a" =
      some [("S", BCSpec.mk "A" ["A", "b"])] ∧
    [("a", [("S", BCSpec.mk "A" ["A", "b"])])] <+:
      add_backward_compatible_keys [("a", [("S", BCSpec.mk "A" ["A", "b"])])]) :=
  ⟨rfl, add_backward_compatible_keys_preserves_bindings _ "a" _ rfl⟩

/-- C7: `ToolGroupKey` satisfies the defining equations of the spec — empty
tuple for no group, `(layout, order)` for a parentless group, parent key
prepended for a child group — and along every chain `C` with parent `B` with
parent `A` the keys are strictly increasing under tuple comparison.  The keys
are computed from the resolved parent references alone, so the order in which
the groups were declared in the input cannot influence them. -/
theorem toolGroupKey_equations_and_chain_monotone :
    (ToolGroupKey none = []) ∧
    (∀ (lay : Option String) (o : Int),
      ToolGroupKey (some (.root lay o)) = [(lay.getD "Default", o)]) ∧
    (∀ (g : ToolGroup) (lay : Option String) (o : Int),
      ToolGroupKey (some (.child lay o g)) =
        ToolGroupKey (some g) ++ [(lay.getD "Default", o)]) ∧
    (∀ (a : ToolGroup) (layB : Option String) (oB : Int)
        (layC : Option String) (oC : Int),
      tupLt (ToolGroupKey (some a))
        (ToolGroupKey (some (.child layB oB a))) = true ∧
      tupLt (ToolGroupKey (some (.child layB oB a)))
        (ToolGroupKey (some (.child layC oC (.child layB oB a)))) = true) :=
  ⟨rfl, fun _ _ => rfl, fun _ _ _ => rfl,
   fun _ _ _ _ _ => ⟨tupLt_self_append _ _, tupLt_self_append _ _⟩⟩

/-! ## Claims about the per-identifier merge of load_blueprint_jsons -/

/-- C1 counterexample: two non-optional declarations for the same slug that
disagree on a scalar field merge to different Definitions when presented to
the fold in the two possible orders — the engine only moves optional
declarations after non-optional ones and otherwise keeps input order. -/
theorem mergeDecls_input_order_dependent :
    mergeDecls "n" [⟨"p1", false, [("A", .int 0)]⟩,
                    ⟨"p2", false, [("A", .int 1)]⟩] ≠
    mergeDecls "n" [⟨"p2", false, [("A", .int 1)]⟩,
                    ⟨"p1", false, [("A", .int 0)]⟩] := by
  intro h
  have h1 : mergeDecls "n" [⟨"p1", false, [("A", .int 0)]⟩,
      ⟨"p2", false, [("A", .int 1)]⟩] = .ok (some [("A", .int 1)]) := rfl
  have h2 : mergeDecls "n" [⟨"p2", false, [("A", .int 1)]⟩,
      ⟨"p1", false, [("A", .int 0)]⟩] = .ok (some [("A", .int 0)]) := rfl
  rw [h1, h2] at h
  simp at h

/-- C1 amended: the merge is a deterministic function of the presented
declaration list, and it is invariant under any reordering that preserves the
relative order of the non-optional declarations among themselves and of the
optional declarations among themselves (the engine itself imposes only the
non-optional-first split; it has no priority field to sort by). -/
theorem mergeDecls_interleaving_invariant (name : String)
    (l1 l2 : List PartialBlueprint)
    (h1 : l1.filter (fun d => !d.optional) = l2.filter (fun d => !d.optional))
    (h2 : l1.filter (fun d => d.optional) = l2.filter (fun d => d.optional)) :
    mergeDecls name l1 = mergeDecls name l2 := by
  unfold mergeDecls sortByOptional
  rw [h1, h2]

/-- C1 witness: moving an optional declaration from before to after a
non-optional one does not change the merge result. -/
theorem mergeDecls_interleaving_invariant_witness :
    ([(⟨"p1", true, [("B", .int 7)]⟩ : PartialBlueprint),
      ⟨"p2", false, [("A", .int 0)]⟩].filter (fun d => !d.optional) =
     [(⟨"p2", false, [("A", .int 0)]⟩ : PartialBlueprint),
      ⟨"p1", true, [("B", .int 7)]⟩].filter (fun d => !d.optional)) ∧
    ([(⟨"p1", true, [("B", .int 7)]⟩ : PartialBlueprint),
      ⟨"p2", false, [("A", .int 0)]⟩].filter (fun d => d.optional) =
     [(⟨"p2", false, [("A", .int 0)]⟩ : PartialBlueprint),
      ⟨"p1", true, [("B", .int 7)]⟩].filter (fun d => d.optional)) ∧
    mergeDecls "n" [⟨"p1", true, [("B", .int 7)]⟩,
                    ⟨"p2", false, [("A", .int 0)]⟩] =
      mergeDecls "n" [⟨"p2", false, [("A", .int 0)]⟩,
                      ⟨"p1", true, [("B", .int 7)]⟩] :=
  ⟨rfl, rfl, mergeDecls_interleaving_invariant "n" _ _ rfl rfl⟩

/-- C2 counterexample: the merged `sawmill` Definition is exactly
`{BuildingCost: [], ScienceCost: 10}` and carries no `Id` field — the merge
loop of `load_blueprint_jsons` starts from an empty dict and never injects
the slug as an `Id` key. -/
theorem sawmill_merge_has_no_id :
    mergeDecls "sawmill" sawmillDecls =
      .ok (some [("BuildingCost", .list []), ("ScienceCost", .int 10)]) ∧
    ([("BuildingCost", .list []), ("ScienceCost", .int 10)] : JDict).lookup
      "Id" = none :=
  ⟨rfl, rfl⟩

/-- C2 amended: folding the three `sawmill` declarations produces exactly the
Definition `{BuildingCost: [], ScienceCost: 10}`; an `Id` field would be
present only if some payload carried one. -/
theorem sawmill_merge_result :
    mergeDecls "sawmill" sawmillDecls =
      .ok (some [("BuildingCost", .list []), ("ScienceCost", .int 10)]) := rfl

theorem foldDecls_all_optional (name : String) :
    ∀ (l : List PartialBlueprint), (∀ d ∈ l, d.optional = true) →
      foldDecls name l none = .ok none := by
  intro l
  induction l with
  | nil => intro _; rfl
  | cons d rest ih =>
    intro h
    have hd : d.optional = true := h d (List.mem_cons_self d rest)
    simp only [foldDecls, hd, Option.isNone_none, Bool.and_self, if_true]
    exact ih (fun x hx => h x (List.mem_cons_of_mem d hx))

theorem mergeDecls_all_optional (name : String) (l : List PartialBlueprint)
    (h : ∀ d ∈ l, d.optional = true) : mergeDecls name l = .ok none := by
  unfold mergeDecls sortByOptional
  have hno : l.filter (fun d => !d.optional) = [] := by
    apply List.filter_eq_nil_iff.mpr
    intro d hd
    simp [h d hd]
  rw [hno, List.nil_append]
  exact foldDecls_all_optional name _
    (fun d hd => h d (List.mem_of_mem_filter hd))

/-- C5: an identifier whose declaration list consists of optional
declarations only receives no entry in the merged map produced by the
`merged_specs` loop of `load_blueprint_jsons` — every optional declaration is
skipped because no base was ever created. -/
theorem optional_only_yields_no_definition
    (all_specs : List (String × List PartialBlueprint)) (name : String)
    (merged : List (String × JDict))
    (hopt : ∀ p ∈ all_specs, p.1 = name → ∀ d ∈ p.2, d.optional = true)
    (hok : load_blueprint_jsons_merge all_specs [] = .ok merged) :
    merged.lookup name = none := by
  suffices hgen : ∀ (specs : List (String × List PartialBlueprint))
      (acc m : List (String × JDict)),
      (∀ p ∈ specs, p.1 = name → ∀ d ∈ p.2, d.optional = true) →
      acc.lookup name = none →
      load_blueprint_jsons_merge specs acc = .ok m →
      m.lookup name = none by
    exact hgen all_specs [] merged hopt rfl hok
  intro specs
  induction specs with
  | nil =>
    intro acc m _ hacc hm
    simp only [load_blueprint_jsons_merge, Except.ok.injEq] at hm
    exact hm ▸ hacc
  | cons p rest ih =>
    rcases p with ⟨n, l⟩
    intro acc m hall hacc hm
    simp only [load_blueprint_jsons_merge] at hm
    rcases hmd : mergeDecls n l with e | os
    · rw [hmd] at hm; cases hm
    · rw [hmd] at hm
      rcases os with _ | spec
      · exact ih _ _ (fun q hq => hall q (List.mem_cons_of_mem _ hq)) hacc hm
      · by_cases hn : n = name
        · exfalso
          have : mergeDecls n l = .ok none :=
            mergeDecls_all_optional n l
              (hall (n, l) (List.mem_cons_self _ _) hn)
          rw [this] at hmd
          cases hmd
        · refine ih _ _ (fun q hq => hall q (List.mem_cons_of_mem _ hq)) ?_ hm
          rw [lookup_append_none _ hacc]
          have : (name == n) = false := by
            simp only [beq_eq_false_iff_ne, ne_eq]
            exact fun hc => hn hc.symm
          simp [List.lookup, this]

/-- C5 witness: a slug with a single optional declaration yields a merged map
with no entry for it. -/
theorem optional_only_yields_no_definition_witness :
    (∀ p ∈ [("sawmill", [(⟨"ov", true, [("A", .int 1)]⟩ : PartialBlueprint)])],
      p.1 = "sawmill" → ∀ d ∈ p.2, d.optional = true) ∧
    load_blueprint_jsons_merge
      [("sawmill", [⟨"ov", true, [("A", .int 1)]⟩])] [] = .ok [] ∧
    ([] : List (String × JDict)).lookup "sawmill" = none :=
  ⟨by decide, rfl,
   optional_only_yields_no_definition
     [("sawmill", [⟨"ov", true, [("A", .int 1)]⟩])] "sawmill" []
     (by decide) rfl⟩

/-! ## Claims about merge_into_spec field handling -/

theorem mergeField_eq_core (name : String) (spec : JDict) (key k m : String)
    (v : JValue) (hk : partitionHash key = (k, m)) :
    mergeField name spec key v = mergeFieldCore name spec k m v := by
  unfold mergeField
  rw [hk]

/-- C10: a key carrying any verb suffix whose bare target field is absent
from the Definition is not an error: the verb is stripped and the incoming
value is stored under the bare key as a plain initialize, whatever the verb
token and whatever the incoming value. -/
theorem verb_on_absent_field_initializes (name : String) (spec : JDict)
    (key k m : String) (v : JValue)
    (hk : partitionHash key = (k, m))
    (habs : spec.lookup k = none) :
    mergeField name spec key v = .ok (dictSet spec k v) := by
  rw [mergeField_eq_core name spec key k m v hk]
  unfold mergeFieldCore
  rw [habs]
  simp [mergeScalar, isFloatV, jtype]

/-- C10 witness: folding `tags#append: ["x"]` into an empty Definition
initializes `tags` to `["x"]`. -/
theorem verb_on_absent_field_initializes_witness :
    (partitionHash "tags#append" = ("tags", "append")) ∧
    (([] : JDict).lookup "tags" = none) ∧
    mergeField "n" [] "tags#append" (.list [.str "x"]) =
      .ok (dictSet [] "tags" (.list [.str "x"])) :=
  ⟨rfl, rfl,
   verb_on_absent_field_initializes "n" [] "tags#append" "tags" "append"
     (.list [.str "x"]) rfl rfl⟩

/-- C4 counterexample: a key with the unsupported verb `delete` whose target
field is absent does not abort — the value is stored under the bare key — so
the abort is not unconditional over the states of the target Definition. -/
theorem unsupported_verb_not_always_fatal :
    mergeField "n" [] "tags#delete" (.list [.str "x"]) =
      .ok [("tags", .list [.str "x"])] := rfl

/-- C4 amended: a verb suffix other than `append`/`remove` aborts the merge
exactly in the state the verb machinery inspects, namely when the bare target
field currently holds a list; any incoming value is rejected there (a
non-list incoming value already fails the list assertion). -/
theorem unsupported_verb_aborts_on_list_field (name : String) (spec : JDict)
    (key k m : String) (v : JValue) (xs : List JValue)
    (hk : partitionHash key = (k, m))
    (hl : spec.lookup k = some (.list xs))
    (hm : m ≠ "") (ha : m ≠ "append") (hr : m ≠ "remove") :
    isErr (mergeField name spec key v) = true := by
  rw [mergeField_eq_core name spec key k m v hk]
  unfold mergeFieldCore
  rw [hl]
  simp only [Option.getD_some]
  rw [if_neg hm]
  unfold listPatch
  cases v <;> simp [isErr, ha, hr]

/-- C4 witness: `tags#delete` against a Definition whose `tags` field holds a
list aborts. -/
theorem unsupported_verb_aborts_on_list_field_witness :
    (partitionHash "tags#delete" = ("tags", "delete")) ∧
    (([("tags", .list [])] : JDict).lookup "tags" = some (.list [])) ∧
    ("delete" ≠ "") ∧ ("delete" ≠ "append") ∧ ("delete" ≠ "remove") ∧
    isErr (mergeField "n" [("tags", .list [])] "tags#delete"
      (.list [.str "x"])) = true :=
  ⟨rfl, rfl, by decide, by decide, by decide,
   unsupported_verb_aborts_on_list_field "n" [("tags", .list [])]
     "tags#delete" "tags" "delete" (.list [.str "x"]) []
     rfl rfl (by decide) (by decide) (by decide)⟩

set_option maxRecDepth 8000 in
set_option exponentiation.threshold 1100 in
/-- C3 counterexample: merging the int `2 ^ 53 + 1` — not exactly
representable as an IEEE 754 double, so `v == float(v)` is false — into a
float-valued field is fatal: the incoming value is not upcast and stored,
refuting the claim that every float-existing/int-incoming pair succeeds. -/
theorem float_field_unrepresentable_int_fatal :
    intExactFloat 9007199254740993 = false ∧
    mergeField "n" [("f", .float 1)] "f" (.int 9007199254740993) =
      .error "n.f" :=
  ⟨rfl, rfl⟩

/-- C3 amended: for a field whose existing and incoming values have different
types the merge fails fast with an error naming the field — except exactly
when the existing value is a float and the incoming value is an int that is
exactly representable as an IEEE 754 double: then the incoming value is
upcast to float and stored.  An incoming int that is not so representable
(for example `2 ^ 53 + 1`) fails the `assert v == float(v)` guard and is
fatal as well. -/
theorem merge_type_mismatch_fatal_except_exact_float_upcast (name : String)
    (spec : JDict) (key k m : String) (v i : JValue)
    (hk : partitionHash key = (k, m))
    (hi : (spec.lookup k).getD .null = i)
    (hnn : i ≠ .null)
    (hty : jtype i ≠ jtype v) :
    if isFloatV i && isIntV v then
      if intExactFloat (intVal v) then
        mergeField name spec key v = .ok (dictSet spec k (upcast v))
      else isErr (mergeField name spec key v) = true
    else isErr (mergeField name spec key v) = true := by
  rw [mergeField_eq_core name spec key k m v hk]
  unfold mergeFieldCore
  rw [hi]
  cases i with
  | null => exact absurd rfl hnn
  | bool b =>
    cases v <;>
      simp_all [mergeScalar, isErr, isFloatV, isIntV, jtype, upcast, intVal]
  | int n =>
    cases v <;>
      simp_all [mergeScalar, isErr, isFloatV, isIntV, jtype, upcast, intVal]
  | float q =>
    cases v with
    | int n =>
      simp only [isFloatV, isIntV, Bool.and_self, intVal, if_true]
      cases hb : intExactFloat n <;>
        simp_all [mergeScalar, isErr, isFloatV, isIntV, intVal, upcast]
    | null =>
      simp_all [mergeScalar, isErr, isFloatV, isIntV, jtype]
    | bool b =>
      simp_all [mergeScalar, isErr, isFloatV, isIntV, jtype]
    | float r =>
      simp_all [jtype]
    | str s =>
      simp_all [mergeScalar, isErr, isFloatV, isIntV, jtype]
    | list xs =>
      simp_all [mergeScalar, isErr, isFloatV, isIntV, jtype]
    | dict d =>
      simp_all [mergeScalar, isErr, isFloatV, isIntV, jtype]
  | str s =>
    cases v <;>
      simp_all [mergeScalar, isErr, isFloatV, isIntV, jtype, upcast, intVal]
  | list xs =>
    by_cases hm : m = "" <;>
      cases v <;>
        simp_all [mergeScalar, listPatch, isErr, isFloatV, isIntV, jtype,
          upcast, intVal]
  | dict d =>
    cases v <;>
      simp_all [isErr, isFloatV, isIntV, jtype]

/-- C3 witness: the representable int `2` merged into the float field `f` of
`{f: 1.0}` passes the guard, upcasts and is stored. -/
theorem merge_type_mismatch_fatal_except_exact_float_upcast_witness :
    (partitionHash "f" = ("f", "")) ∧
    (([("f", .float 1)] : JDict).lookup "f").getD .null = .float 1 ∧
    (JValue.float 1 ≠ .null) ∧
    (jtype (.float 1) ≠ jtype (.int 2)) ∧
    (if isFloatV (.float 1) && isIntV (.int 2) then
      if intExactFloat (intVal (.int 2)) then
        mergeField "n" [("f", .float 1)] "f" (.int 2) =
          .ok (dictSet [("f", .float 1)] "f" (upcast (.int 2)))
      else isErr (mergeField "n" [("f", .float 1)] "f" (.int 2)) = true
    else isErr (mergeField "n" [("f", .float 1)] "f" (.int 2)) = true) :=
  ⟨rfl, rfl, (by intro h; cases h), (by decide),
   merge_type_mismatch_fatal_except_exact_float_upcast "n" [("f", .float 1)]
     "f" "f" "" (.int 2) (.float 1) rfl rfl (by intro h; cases h)
     (by decide)⟩

theorem lookup_map_set {v : JValue} :
    ∀ (d : JDict) (k : String), d.any (fun p => p.1 == k) = true →
      (d.map (fun p => bif p.1 == k then (p.1, v) else p)).lookup k =
        some v := by
  intro d
  induction d with
  | nil => intro k h; simp at h
  | cons p rest ih =>
    intro k h
    rcases p with ⟨k1, v1⟩
    by_cases h1 : (k1 == k) = true
    · have hk1 : k1 = k := eq_of_beq h1
      simp only [List.map_cons, h1, cond_true, List.lookup, hk1,
        beq_self_eq_true]
    · have h1f : (k1 == k) = false := by simpa using h1
      have hkk : (k == k1) = false := by
        simp only [beq_eq_false_iff_ne, ne_eq] at h1f ⊢
        exact fun hc => h1f hc.symm
      simp only [List.any_cons, h1f, Bool.false_or] at h
      simp only [List.map_cons, h1f, cond_false, List.lookup, hkk]
      exact ih _ h

theorem lookup_none_of_any_false :
    ∀ (d : JDict) (k : String), d.any (fun p => p.1 == k) = false →
      d.lookup k = none := by
  intro d
  induction d with
  | nil => intro k _; rfl
  | cons p rest ih =>
    intro k h
    rcases p with ⟨k1, v1⟩
    simp only [List.any_cons, Bool.or_eq_false_iff] at h
    have hkk : (k == k1) = false := by
      simp only [beq_eq_false_iff_ne, ne_eq] at h ⊢
      exact fun hc => h.1 hc.symm
    simp [List.lookup, hkk, ih _ h.2]

theorem lookup_dictSet_self (d : JDict) (k : String) (v : JValue) :
    (dictSet d k v).lookup k = some v := by
  unfold dictSet
  split
  · next h => exact lookup_map_set d k h
  · next h =>
    rw [lookup_append_none _
      (lookup_none_of_any_false d k (Bool.not_eq_true _ ▸ h))]
    simp [List.lookup]

theorem pyContainsList_append_self (xs : List JValue) (x : JValue)
    (hb : JValue.beq x x = true) :
    pyContainsList (xs ++ [x]) x = true := by
  simp [pyContainsList, List.any_append, hb]

theorem pyRemove_append_not_mem :
    ∀ (xs : List JValue) (x : JValue), JValue.beq x x = true →
      pyContainsList xs x = false → pyRemove (xs ++ [x]) x = xs := by
  intro xs x hb
  induction xs with
  | nil => intro _; simp [pyRemove, hb]
  | cons y ys ih =>
    intro hx
    simp only [pyContainsList, List.any_cons, Bool.or_eq_false_iff] at hx
    simp only [List.cons_append, pyRemove, hx.1, cond_false, List.append_eq]
    rw [ih (by simpa [pyContainsList] using hx.2)]

/-- C9: for a Definition whose `tags` field holds a list not containing
`"x"`, folding `tags#append: ["x"]` appends the element and then folding
`tags#remove: ["x"]` removes exactly that occurrence, restoring the original
list contents and order. -/
theorem remove_inverse_of_append (name : String) (spec : JDict)
    (xs : List JValue)
    (h : spec.lookup "tags" = some (.list xs))
    (hx : pyContainsList xs (.str "x") = false) :
    mergeField name spec "tags#append" (.list [.str "x"]) =
      .ok (dictSet spec "tags" (.list (xs ++ [.str "x"]))) ∧
    mergeField name (dictSet spec "tags" (.list (xs ++ [.str "x"])))
        "tags#remove" (.list [.str "x"]) =
      .ok (dictSet (dictSet spec "tags" (.list (xs ++ [.str "x"]))) "tags"
        (.list xs)) ∧
    (dictSet (dictSet spec "tags" (.list (xs ++ [.str "x"]))) "tags"
        (.list xs)).lookup "tags" = some (.list xs) := by
  refine ⟨?_, ?_, lookup_dictSet_self _ _ _⟩
  · rw [mergeField_eq_core name spec "tags#append" "tags" "append"
      (.list [.str "x"]) rfl]
    unfold mergeFieldCore
    rw [h]
    simp [listPatch]
  · rw [mergeField_eq_core name _ "tags#remove" "tags" "remove"
      (.list [.str "x"]) rfl]
    unfold mergeFieldCore
    simp only [lookup_dictSet_self, Option.getD_some]
    have hrm : removeAll (xs ++ [.str "x"]) [.str "x"] = xs := by
      unfold removeAll
      simp only [List.foldl_cons, List.foldl_nil,
        pyContainsList_append_self xs (.str "x") rfl, cond_true]
      exact pyRemove_append_not_mem xs (.str "x") rfl hx
    show Except.ok (dictSet (dictSet spec "tags" (.list (xs ++ [.str "x"])))
        "tags" (.list (removeAll (xs ++ [.str "x"]) [.str "x"]))) = _
    rw [hrm]

/-- C9 witness: the Definition `{tags: ["a"]}` is restored exactly after the
append/remove round trip of `"x"`. -/
theorem remove_inverse_of_append_witness :
    (([("tags", .list [.str "a"])] : JDict).lookup "tags" =
      some (.list [.str "a"])) ∧
    pyContainsList [.str "a"] (.str "x") = false ∧
    (mergeField "n" [("tags", .list [.str "a"])] "tags#append"
        (.list [.str "x"]) =
      .ok (dictSet [("tags", .list [.str "a"])] "tags"
        (.list ([.str "a"] ++ [.str "x"]))) ∧
    mergeField "n"
        (dictSet [("tags", .list [.str "a"])] "tags"
          (.list ([.str "a"] ++ [.str "x"])))
        "tags#remove" (.list [.str "x"]) =
      .ok (dictSet
        (dictSet [("tags", .list [.str "a"])] "tags"
          (.list ([.str "a"] ++ [.str "x"]))) "tags" (.list [.str "a"])) ∧
    (dictSet
        (dictSet [("tags", .list [.str "a"])] "tags"
          (.list ([.str "a"] ++ [.str "x"]))) "tags"
        (.list [.str "a"])).lookup "tags" = some (.list [.str "a"])) :=
  ⟨rfl, rfl,
   remove_inverse_of_append "n" [("tags", .list [.str "a"])] [.str "a"]
     rfl rfl⟩

/-! ## Claims about dict_group_by_id -/

theorem any_of_lookup_some {β : Type} :
    ∀ (l : List (String × β)) (k : String) (v : β),
      l.lookup k = some v → l.any (fun p => p.1 == k) = true := by
  intro l k v
  induction l with
  | nil => intro h; cases h
  | cons p r ih =>
    intro h
    simp only [List.lookup] at h
    split at h
    · next heq =>
      have : p.1 = k := (eq_of_beq heq).symm
      simp [List.any_cons, this]
    · simp [List.any_cons, ih h]

/-- C8 counterexample: a record whose segment `a` is present but null, under
the dotted path `a.b`, makes `dict_group_by_id` raise (`'b' in None` is a
TypeError) instead of logging a warning and skipping the record. -/
theorem group_by_null_segment_raises :
    dict_group_by_id [.dict [("a", .null)]] "a.b" =
      .error "TypeError: argument is not iterable" := rfl

/-- C8 amended: when a path segment resolves to a present-but-null value the
grouping does not warn-and-skip; it raises.  With further segments pending
the membership test on `None` raises a TypeError, and with the null as the
terminal group key the `lower()` call raises an AttributeError; either way
the whole call aborts, whatever records follow. -/
theorem group_by_null_segment_error (kvs : JDict) (rest : List JValue)
    (h : kvs.lookup "a" = some .null) :
    dict_group_by_id (.dict kvs :: rest) "a.b" =
      .error "TypeError: argument is not iterable" ∧
    dict_group_by_id (.dict kvs :: rest) "a" =
      .error "AttributeError: lower" := by
  have hany : (kvs.any fun p => p.1 == "a") = true :=
    any_of_lookup_some kvs "a" .null h
  constructor
  · show dict_group_by_id_aux ["a", "b"] (.dict kvs :: rest) [] = _
    simp only [dict_group_by_id_aux, resolvePath, pyContains, hany, pyIndex,
      h, if_true, bind, Except.bind]
  · show dict_group_by_id_aux ["a"] (.dict kvs :: rest) [] = _
    simp only [dict_group_by_id_aux, resolvePath, pyContains, hany, pyIndex,
      h, if_true, bind, Except.bind, lowerKey]

/-- C8 witness for the amended claim: the single-record input
`[{a: null}]` aborts under both path shapes. -/
theorem group_by_null_segment_error_witness :
    (([("a", JValue.null)] : JDict).lookup "a" = some .null) ∧
    (dict_group_by_id [.dict [("a", .null)], .int 5] "a.b" =
      .error "TypeError: argument is not iterable" ∧
    dict_group_by_id [.dict [("a", .null)], .int 5] "a" =
      .error "AttributeError: lower") :=
  ⟨rfl, group_by_null_segment_error [("a", .null)] [.int 5] rfl⟩

end Timbertrees
